import Mathlib

/-!
Shallow embedding of the translation and formatting core of `gb_read`
(`src/main.rs`): the genetic-code tables, the base mapper `lookup`, the
codon translator `translate`, the amino-acid namer `three_letter_code`,
the digit counter `count_digits`, and the paginated renderer `print_seq`.
Strings are modelled as `List Char`; machine integers as `Nat` with the
`as u16` cast made explicit as `% 65536`; fallible functions return
`Except Error _`.
-/

namespace GbRead

/-- Translation table 11; indexed by 16*lane(b0) + 4*lane(b1) + lane(b2)
with T=0, C=1, A=2, G=3 (from `GENETIC_CODE` in `src/main.rs`). -/
def GENETIC_CODE : List Char :=
  "FFLLSSSSYY**CC*WLLLLPPPPHHQQRRRRIIIMTTTTNNKKSSRRVVVVAAAADDEEGGGG".data

/-- Start-codon override table (`STARTS` in `src/main.rs`). -/
def STARTS : List Char :=
  "---M------**--*----M------------MMMM---------------M------------".data

/-- Sentinel lane value for an invalid nucleotide (`ERR_BAD_NT`). -/
def ERR_BAD_NT : Nat := 99

/-- The two error kinds of the program (`enum Error` in `src/main.rs`). -/
inductive Error where
  | BadNucleotide (lanes : List Nat)
  | InvalidAminoAcid (c : Char)
deriving DecidableEq, Repr

/-- Base mapper (`fn lookup`): maps a base to its 2-bit lane, with the
sentinel for anything outside the accepted alphabet. -/
def lookup (x : Char) : Nat :=
  match x with
  | 'T' => 0
  | 'C' => 1
  | 'A' => 2
  | 'N' => 2
  | 'G' => 3
  | _ => ERR_BAD_NT

/-- The lane vector built by `translate`'s for-loop: a 3-slot vector
prefilled with `ERR_BAD_NT`, each present base written at its index. -/
def fillCodon (triplet : List Char) : List Nat :=
  triplet.enum.foldl (fun codon p => codon.set p.1 (lookup p.2))
    [ERR_BAD_NT, ERR_BAD_NT, ERR_BAD_NT]

/-- Codon translator (`fn translate`): fails with `BadNucleotide` if any
lane is unfilled or invalid; otherwise indexes the tables, applying the
start-codon override at position 0. -/
def translate (triplet : List Char) (i : Nat) : Except Error Char :=
  let codon := fillCodon triplet
  if ERR_BAD_NT ∈ codon then
    .error (.BadNucleotide codon)
  else
    let index := codon.getD 0 0 * 16 + codon.getD 1 0 * 4 + codon.getD 2 0
    if i = 0 ∧ STARTS.getD index ' ' = 'M' then
      .ok 'M'
    else
      .ok (GENETIC_CODE.getD index ' ')

/-- The 27-entry amino-acid naming table (`THREE_LETTER_CODE`). -/
def THREE_LETTER_CODE : List (Char × String) :=
  [('A', "Ala"), ('B', "???"), ('C', "Cys"), ('D', "Asp"), ('E', "Glu"),
   ('F', "Phe"), ('G', "Gly"), ('H', "His"), ('I', "Ile"), ('J', "???"),
   ('K', "Lys"), ('L', "Leu"), ('M', "Met"), ('N', "Asn"), ('O', "Pyr"),
   ('P', "Pro"), ('Q', "Gln"), ('R', "Arg"), ('S', "Ser"), ('T', "Thr"),
   ('U', "Sel"), ('V', "Val"), ('W', "Trp"), ('X', "???"), ('Y', "Tyr"),
   ('Z', "???"), ('*', "***")]

/-- Lookup in the naming table (the `HashMap` read `THREE_LETTER_CODE[&aa]`). -/
def tlc_find (aa : Char) : Option String :=
  (THREE_LETTER_CODE.find? (fun p => p.1 == aa)).map Prod.snd

/-- Amino-acid namer (`fn three_letter_code`): validates the residue is in
`'A'..='Z' | '*'` before reading the table. -/
def three_letter_code (aa : Char) : Except Error String :=
  if ('A' ≤ aa ∧ aa ≤ 'Z') ∨ aa = '*' then
    .ok ((tlc_find aa).getD "")
  else
    .error (.InvalidAminoAcid aa)

/-- One iteration of `print_seq`'s peptide-building loop body: translate
codon number `i` and render it as a 3-character block. -/
def codonBlock (one_letter : Bool) (i : Nat) (codon : List Char) :
    Except Error (List Char) :=
  match translate codon i with
  | .error e => .error e
  | .ok aa =>
    if one_letter then .ok [' ', aa, ' ']
    else
      match three_letter_code aa with
      | .error e => .error e
      | .ok t => .ok t.data

/-- The peptide-building loop of `print_seq`, over the enumerated exact
chunks, carrying the running codon index; the `?` operator is the
error-propagating match. -/
def buildPeptide (one_letter : Bool) : Nat → List (List Char) → Except Error (List Char)
  | _, [] => .ok []
  | i, codon :: rest =>
    match codonBlock one_letter i codon with
    | .error e => .error e
    | .ok block =>
      match buildPeptide one_letter (i + 1) rest with
      | .error e => .error e
      | .ok tail => .ok (block ++ tail)

/-- `chunks_exact(3)`: the maximal list of complete 3-base codons, the
trailing remainder dropped. -/
def chunksExact : List Char → List (List Char)
  | a :: b :: c :: rest => [a, b, c] :: chunksExact rest
  | _ => []

/-- The inner loop of `fn count_digits`:
`while n > 0 { n /= 10; if n >= 1 { digits += 1 } }`. -/
def cdLoop (n digits : Nat) : Nat :=
  if n > 0 then
    cdLoop (n / 10) (if n / 10 ≥ 1 then digits + 1 else digits)
  else
    digits
termination_by n
decreasing_by exact Nat.div_lt_self (by omega) (by omega)

/-- `fn count_digits` (argument is a `u16` at the call site). -/
def count_digits (n : Nat) : Nat := cdLoop n 1

/-- Bases per printed line (`line_len` in `print_seq`). -/
def line_len : Nat := 72

/-- Number of lines printed by `print_seq` for a sequence `s`. -/
def n_lines (s : List Char) : Nat :=
  if s.length % line_len ≠ 0 then s.length / line_len + 1 else s.length / line_len

/-- One peptide/DNA line pair printed by `print_seq`: the numbers, the
zero-pad width passed to the formatter, and the character slices. -/
structure DisplayLine where
  pept_number : Nat
  pept_width : Nat
  pept : List Char
  dna_number : Nat
  dna_width : Nat
  dna : List Char
deriving DecidableEq, Repr

instance : Inhabited DisplayLine := ⟨⟨0, 0, [], 0, 0, []⟩⟩

/-- Block `i` of `print_seq`'s printing loop. -/
def mkLine (s peptide : List Char) (width i : Nat) : DisplayLine :=
  let start := i * line_len
  let dna_end := min (start + line_len) s.length
  let pept_end := min (start + line_len) peptide.length
  { pept_number := start / 3 + 1
    pept_width := width
    pept := (peptide.drop start).take (pept_end - start)
    dna_number := start + 1
    dna_width := width
    dna := (s.drop start).take (dna_end - start) }

/-- `fn print_seq`: build the whole peptide first (propagating any
translation or naming error), then emit the numbered line pairs.
The Rust `s.len() as u16` cast is the explicit `% 65536`. -/
def print_seq (s : List Char) (one_letter : Bool) : Except Error (List DisplayLine) :=
  match buildPeptide one_letter 0 (chunksExact s) with
  | .error e => .error e
  | .ok peptide =>
    .ok ((List.range (n_lines s)).map (mkLine s peptide (count_digits (s.length % 65536))))

example : translate ['A', 'T', 'G'] 1 = .ok 'M' := rfl
example : translate ['G', 'T', 'G'] 0 = .ok 'M' := rfl
example : translate ['G', 'T', 'G'] 1 = .ok 'V' := rfl
example : translate ['T', 'A', 'G'] 1 = .ok '*' := rfl
example : translate ['N', 'N', 'N'] 1 = .ok 'K' := rfl
example : three_letter_code 'O' = .ok "Pyr" := rfl
example : three_letter_code '1' = .error (.InvalidAminoAcid '1') := rfl

/-! ### Basic facts about the base mapper and translator -/

/-- A lane that is not the sentinel is a valid 2-bit lane. -/
lemma lookup_lt_four {b : Char} (h : lookup b ≠ ERR_BAD_NT) : lookup b < 4 := by
  revert h
  unfold lookup
  split <;> simp [ERR_BAD_NT]

/-- The sentinel is produced exactly off the accepted alphabet
(which includes `'N'`, mapped like `'A'`). -/
lemma lookup_err_iff (b : Char) :
    lookup b = ERR_BAD_NT ↔ b ∉ (['T', 'C', 'A', 'G', 'N'] : List Char) := by
  unfold lookup
  split <;> simp_all [ERR_BAD_NT]

lemma fillCodon_nil : fillCodon [] = [ERR_BAD_NT, ERR_BAD_NT, ERR_BAD_NT] := rfl

lemma fillCodon_one (a : Char) : fillCodon [a] = [lookup a, ERR_BAD_NT, ERR_BAD_NT] := rfl

lemma fillCodon_two (a b : Char) : fillCodon [a, b] = [lookup a, lookup b, ERR_BAD_NT] := rfl

lemma fillCodon_three (b0 b1 b2 : Char) :
    fillCodon [b0, b1, b2] = [lookup b0, lookup b1, lookup b2] := rfl

/-- Evaluation of `translate` on a codon of three valid bases. -/
lemma translate_valid (b0 b1 b2 : Char) (i : Nat)
    (h0 : lookup b0 ≠ ERR_BAD_NT) (h1 : lookup b1 ≠ ERR_BAD_NT)
    (h2 : lookup b2 ≠ ERR_BAD_NT) :
    translate [b0, b1, b2] i =
      .ok (if i = 0 ∧ STARTS.getD (16 * lookup b0 + 4 * lookup b1 + lookup b2) ' ' = 'M'
           then 'M'
           else GENETIC_CODE.getD (16 * lookup b0 + 4 * lookup b1 + lookup b2) ' ') := by
  have hmem : ERR_BAD_NT ∉ [lookup b0, lookup b1, lookup b2] := by
    simp only [List.mem_cons, List.not_mem_nil, or_false]
    push_neg
    exact ⟨fun h => h0 h.symm, fun h => h1 h.symm, fun h => h2 h.symm⟩
  have key : lookup b0 * 16 + lookup b1 * 4 + lookup b2
      = 16 * lookup b0 + 4 * lookup b1 + lookup b2 := by ring
  simp only [translate, fillCodon_three, if_neg hmem, List.getD, List.get?_cons_zero,
    List.get?_cons_succ, Option.getD_some, key]
  split <;> simp [*]

/-- Evaluation of `translate` on a codon with an invalid base. -/
lemma translate_invalid (b0 b1 b2 : Char) (i : Nat)
    (h : lookup b0 = ERR_BAD_NT ∨ lookup b1 = ERR_BAD_NT ∨ lookup b2 = ERR_BAD_NT) :
    translate [b0, b1, b2] i = .error (.BadNucleotide [lookup b0, lookup b1, lookup b2]) := by
  have hmem : ERR_BAD_NT ∈ [lookup b0, lookup b1, lookup b2] := by
    rcases h with h | h | h <;> simp [h.symm]
  simp only [translate, fillCodon_three, if_pos hmem]

/-- C1: for a codon whose three bases all map to valid lanes, `translate`
computes the index 16*lane(b0) + 4*lane(b1) + lane(b2) (a value in [0,63]),
returns 'M' when the position is 0 and the STARTS entry there is 'M', and
otherwise returns the GENETIC_CODE entry; in particular GTG translates to
'M' at position 0 and to 'V' at any later position. -/
theorem c1_translate_table (b0 b1 b2 : Char) (i : Nat)
    (h0 : lookup b0 ≠ ERR_BAD_NT) (h1 : lookup b1 ≠ ERR_BAD_NT)
    (h2 : lookup b2 ≠ ERR_BAD_NT) :
    16 * lookup b0 + 4 * lookup b1 + lookup b2 ≤ 63 ∧
    translate [b0, b1, b2] i =
      .ok (if i = 0 ∧ STARTS.getD (16 * lookup b0 + 4 * lookup b1 + lookup b2) ' ' = 'M'
           then 'M'
           else GENETIC_CODE.getD (16 * lookup b0 + 4 * lookup b1 + lookup b2) ' ') ∧
    translate ['G', 'T', 'G'] 0 = .ok 'M' ∧
    (0 < i → translate ['G', 'T', 'G'] i = .ok 'V') := by
  have l0 := lookup_lt_four h0
  have l1 := lookup_lt_four h1
  have l2 := lookup_lt_four h2
  refine ⟨by omega, translate_valid b0 b1 b2 i h0 h1 h2, rfl, fun hi => ?_⟩
  have hT : lookup 'T' ≠ ERR_BAD_NT := by decide
  have hG : lookup 'G' ≠ ERR_BAD_NT := by decide
  rw [translate_valid 'G' 'T' 'G' i hG hT hG]
  rw [if_neg (by rintro ⟨h, -⟩; omega)]
  rfl

theorem c1_translate_table_witness :
    translate ['A', 'T', 'G'] 7 =
      .ok (if (7 : Nat) = 0 ∧ STARTS.getD (16 * lookup 'A' + 4 * lookup 'T' + lookup 'G') ' ' = 'M'
           then 'M'
           else GENETIC_CODE.getD (16 * lookup 'A' + 4 * lookup 'T' + lookup 'G') ' ') :=
  (c1_translate_table 'A' 'T' 'G' 7 (by decide) (by decide) (by decide)).2.1

/-- C2 counterexample: the base mapper also accepts `'N'` (mapping it to
lane 2, like `'A'`), so a codon containing `'N'` does not fail: NNN at a
non-start position translates to the residue 'K'. -/
theorem c2_counterexample : lookup 'N' = 2 ∧ translate ['N', 'N', 'N'] 1 = .ok 'K' :=
  ⟨rfl, rfl⟩

/-- C2 (amended): the base mapper accepts exactly 'T', 'C', 'A', 'G' and
'N' (case-sensitive, with 'N' mapped to the same lane as 'A'); for every
codon containing a character outside these five, `translate` returns the
`BadNucleotide` error carrying the partial lane vector, and never returns
a residue for such a codon. -/
theorem c2_bad_nucleotide :
    (∀ b : Char, lookup b ≠ ERR_BAD_NT ↔ b ∈ (['T', 'C', 'A', 'G', 'N'] : List Char)) ∧
    ∀ b0 b1 b2 : Char, ∀ i : Nat,
      (b0 ∉ (['T', 'C', 'A', 'G', 'N'] : List Char) ∨
       b1 ∉ (['T', 'C', 'A', 'G', 'N'] : List Char) ∨
       b2 ∉ (['T', 'C', 'A', 'G', 'N'] : List Char)) →
      translate [b0, b1, b2] i = .error (.BadNucleotide [lookup b0, lookup b1, lookup b2]) ∧
      ∀ c : Char, translate [b0, b1, b2] i ≠ .ok c := by
  constructor
  · intro b
    rw [Ne, lookup_err_iff, not_not]
  · intro b0 b1 b2 i h
    have h' : lookup b0 = ERR_BAD_NT ∨ lookup b1 = ERR_BAD_NT ∨ lookup b2 = ERR_BAD_NT := by
      rcases h with h | h | h
      · exact Or.inl ((lookup_err_iff b0).mpr h)
      · exact Or.inr (Or.inl ((lookup_err_iff b1).mpr h))
      · exact Or.inr (Or.inr ((lookup_err_iff b2).mpr h))
    refine ⟨translate_invalid b0 b1 b2 i h', fun c => ?_⟩
    rw [translate_invalid b0 b1 b2 i h']
    simp

theorem c2_bad_nucleotide_witness :
    translate ['X', 'A', 'A'] 5 = .error (.BadNucleotide [99, 2, 2]) ∧
    ∀ c : Char, translate ['X', 'A', 'A'] 5 ≠ .ok c :=
  c2_bad_nucleotide.2 'X' 'A' 'A' 5 (Or.inl (by decide))

/-- C10: `translate` on a byte slice shorter than 3 returns the
`BadNucleotide` error (never a residue): the lane vector is prefilled with
the sentinel `ERR_BAD_NT`, so an unfilled lane trips the error check. -/
theorem c10_short_slice (t : List Char) (i : Nat) (h : t.length < 3) :
    ∃ lanes, translate t i = .error (.BadNucleotide lanes) ∧
      lanes.length = 3 ∧ ERR_BAD_NT ∈ lanes := by
  match t with
  | [] =>
    exact ⟨[ERR_BAD_NT, ERR_BAD_NT, ERR_BAD_NT], rfl, rfl, by simp⟩
  | [a] =>
    refine ⟨[lookup a, ERR_BAD_NT, ERR_BAD_NT], ?_, rfl, by simp⟩
    have hmem : ERR_BAD_NT ∈ [lookup a, ERR_BAD_NT, ERR_BAD_NT] := by simp
    simp only [translate, fillCodon_one, if_pos hmem]
  | [a, b] =>
    refine ⟨[lookup a, lookup b, ERR_BAD_NT], ?_, rfl, by simp⟩
    have hmem : ERR_BAD_NT ∈ [lookup a, lookup b, ERR_BAD_NT] := by simp
    simp only [translate, fillCodon_two, if_pos hmem]
  | a :: b :: c :: rest =>
    simp at h
    omega

theorem c10_short_slice_witness :
    ∃ lanes, translate ['A'] 0 = .error (.BadNucleotide lanes) ∧
      lanes.length = 3 ∧ ERR_BAD_NT ∈ lanes :=
  c10_short_slice ['A'] 0 (by decide)

/-! ### Facts about the amino-acid namer -/

/-- The naming table has an entry for every uppercase letter. -/
lemma tlc_total (aa : Char) (h1 : 'A' ≤ aa) (h2 : aa ≤ 'Z') : (tlc_find aa).isSome := by
  have hb : ∀ n, n < 91 → 65 ≤ n → ((tlc_find (Char.ofNat n)).isSome = true) := by decide
  have e : Char.ofNat aa.toNat = aa := Char.ofNat_toNat aa
  have hn2 : aa.toNat ≤ 90 := h2
  have hn1 : (65 : Nat) ≤ aa.toNat := h1
  have := hb aa.toNat (by omega) hn1
  rwa [e] at this

/-- Every value in the naming table is a 3-character mnemonic. -/
lemma tlc_mem_len {aa : Char} {v : String} (h : tlc_find aa = some v) : v.data.length = 3 := by
  unfold tlc_find at h
  rcases Option.map_eq_some'.mp h with ⟨p, hp, rfl⟩
  have hmem := List.mem_of_find?_eq_some hp
  have hall : ∀ p ∈ THREE_LETTER_CODE, p.2.data.length = 3 := by decide
  exact hall p hmem

/-- A successfully produced mnemonic always has 3 characters. -/
lemma three_letter_code_len {aa : Char} {t : String}
    (h : three_letter_code aa = .ok t) : t.data.length = 3 := by
  unfold three_letter_code at h
  split at h
  · rename_i hc
    rcases Except.ok.inj h with rfl
    rcases hc with ⟨h1, h2⟩ | rfl
    · rcases Option.isSome_iff_exists.mp (tlc_total aa h1 h2) with ⟨v, hv⟩
      rw [hv]
      exact tlc_mem_len hv
    · rfl
  · exact absurd h (by simp)

/-- C6: the namer is total over the 26 uppercase letters (each reading
its table entry) and over '*'; 'O' names "Pyr", 'U' names "Sel", the
ambiguity letters B, J, X, Z name the fixed placeholder "???", '*' names
"***", and every character outside A-Z and '*' fails with
`InvalidAminoAcid` carrying that character. -/
theorem c6_namer_total :
    (∀ aa : Char, 'A' ≤ aa → aa ≤ 'Z' →
      ∃ s, three_letter_code aa = .ok s ∧ tlc_find aa = some s) ∧
    three_letter_code 'O' = .ok "Pyr" ∧
    three_letter_code 'U' = .ok "Sel" ∧
    three_letter_code 'B' = .ok "???" ∧
    three_letter_code 'J' = .ok "???" ∧
    three_letter_code 'X' = .ok "???" ∧
    three_letter_code 'Z' = .ok "???" ∧
    three_letter_code '*' = .ok "***" ∧
    three_letter_code '1' = .error (.InvalidAminoAcid '1') ∧
    (∀ aa : Char, ¬ (('A' ≤ aa ∧ aa ≤ 'Z') ∨ aa = '*') →
      three_letter_code aa = .error (.InvalidAminoAcid aa)) := by
  refine ⟨fun aa h1 h2 => ?_, rfl, rfl, rfl, rfl, rfl, rfl, rfl, rfl, fun aa h => ?_⟩
  · rcases Option.isSome_iff_exists.mp (tlc_total aa h1 h2) with ⟨v, hv⟩
    refine ⟨v, ?_, hv⟩
    unfold three_letter_code
    rw [if_pos (Or.inl ⟨h1, h2⟩), hv]
    rfl
  · unfold three_letter_code
    rw [if_neg h]

theorem c6_namer_total_witness :
    (∃ s, three_letter_code 'Q' = .ok s ∧ tlc_find 'Q' = some s) ∧
    three_letter_code '#' = .error (.InvalidAminoAcid '#') :=
  ⟨c6_namer_total.1 'Q' (by decide) (by decide),
   c6_namer_total.2.2.2.2.2.2.2.2.2 '#' (by decide)⟩

/-- Every residue the genetic-code table can emit is an uppercase letter
or '*'. -/
lemma code_char_inrange : ∀ n, n < 64 →
    ('A' ≤ GENETIC_CODE.getD n ' ' ∧ GENETIC_CODE.getD n ' ' ≤ 'Z') ∨
      GENETIC_CODE.getD n ' ' = '*' := by decide

/-- C8: a residue produced by `translate` is always named successfully:
the `InvalidAminoAcid` branch of the namer is unreachable for translator
output, because the tables emit only uppercase letters and '*'. -/
theorem c8_namer_unreachable_error (b0 b1 b2 : Char) (i : Nat) (c : Char)
    (hok : translate [b0, b1, b2] i = .ok c) :
    ∃ s, three_letter_code c = .ok s := by
  by_cases h0 : lookup b0 = ERR_BAD_NT
  · rw [translate_invalid b0 b1 b2 i (Or.inl h0)] at hok
    exact absurd hok (by simp)
  by_cases h1 : lookup b1 = ERR_BAD_NT
  · rw [translate_invalid b0 b1 b2 i (Or.inr (Or.inl h1))] at hok
    exact absurd hok (by simp)
  by_cases h2 : lookup b2 = ERR_BAD_NT
  · rw [translate_invalid b0 b1 b2 i (Or.inr (Or.inr h2))] at hok
    exact absurd hok (by simp)
  rw [translate_valid b0 b1 b2 i h0 h1 h2] at hok
  rcases Except.ok.inj hok with rfl
  have hidx : 16 * lookup b0 + 4 * lookup b1 + lookup b2 < 64 := by
    have := lookup_lt_four h0
    have := lookup_lt_four h1
    have := lookup_lt_four h2
    omega
  have hc : ('A' ≤ (if i = 0 ∧ STARTS.getD (16 * lookup b0 + 4 * lookup b1 + lookup b2) ' ' = 'M'
        then 'M'
        else GENETIC_CODE.getD (16 * lookup b0 + 4 * lookup b1 + lookup b2) ' ') ∧
      (if i = 0 ∧ STARTS.getD (16 * lookup b0 + 4 * lookup b1 + lookup b2) ' ' = 'M'
        then 'M'
        else GENETIC_CODE.getD (16 * lookup b0 + 4 * lookup b1 + lookup b2) ' ') ≤ 'Z') ∨
      (if i = 0 ∧ STARTS.getD (16 * lookup b0 + 4 * lookup b1 + lookup b2) ' ' = 'M'
        then 'M'
        else GENETIC_CODE.getD (16 * lookup b0 + 4 * lookup b1 + lookup b2) ' ') = '*' := by
    split
    · exact Or.inl ⟨by decide, by decide⟩
    · exact code_char_inrange _ hidx
  rcases hc with ⟨hA, hZ⟩ | hstar
  · rcases Option.isSome_iff_exists.mp (tlc_total _ hA hZ) with ⟨v, hv⟩
    refine ⟨v, ?_⟩
    unfold three_letter_code
    rw [if_pos (Or.inl ⟨hA, hZ⟩), hv]
    rfl
  · rw [hstar]
    exact ⟨"***", rfl⟩

theorem c8_namer_unreachable_error_witness :
    ∃ s, three_letter_code 'L' = .ok s :=
  c8_namer_unreachable_error 'C' 'T' 'G' 4 'L' rfl

/-! ### Facts about the formatter -/

/-- Successful `print_seq` output is the mapped line blocks over a
successfully built peptide. -/
lemma print_seq_ok_elim {s : List Char} {ol : Bool} {lines : List DisplayLine}
    (h : print_seq s ol = .ok lines) :
    ∃ p, buildPeptide ol 0 (chunksExact s) = .ok p ∧
      lines = (List.range (n_lines s)).map (mkLine s p (count_digits (s.length % 65536))) := by
  unfold print_seq at h
  split at h
  · exact absurd h (by simp)
  · rename_i p heq
    exact ⟨p, heq, (Except.ok.inj h).symm⟩

lemma take_min (n : Nat) (l : List Char) : l.take (min n l.length) = l.take n := by
  rcases Nat.le_total n l.length with h | h
  · rw [Nat.min_eq_left h]
  · rw [Nat.min_eq_right h, List.take_length, List.take_of_length_le h]

/-- The slice arithmetic of a `print_seq` line block: clamping the end
index to the list length is the same as a plain width-72 take. -/
lemma slice_norm (p : List Char) (k : Nat) :
    (p.drop k).take (min (k + line_len) p.length - k) = (p.drop k).take line_len := by
  have harith : min (k + line_len) p.length - k = min line_len (p.length - k) := by omega
  rw [harith, ← List.length_drop, take_min]

/-- Concatenating enough width-72 slices reproduces the whole list. -/
lemma chunks_join : ∀ (n : Nat) (p : List Char), p.length ≤ n * line_len →
    ((List.range n).map (fun i => (p.drop (i * line_len)).take line_len)).flatten = p := by
  intro n
  induction n with
  | zero =>
    intro p hp
    have hnil : p = [] := List.eq_nil_of_length_eq_zero (by omega)
    simp [hnil]
  | succ n ih =>
    intro p hp
    rw [List.range_succ_eq_map, List.map_cons, List.map_map, List.flatten_cons]
    have hfun : ((fun i => (p.drop (i * line_len)).take line_len) ∘ Nat.succ)
        = fun i => ((p.drop line_len).drop (i * line_len)).take line_len := by
      funext i
      simp only [Function.comp_apply]
      rw [List.drop_drop, Nat.succ_mul, Nat.add_comm]
    rw [hfun]
    rw [ih (p.drop line_len) (by rw [List.length_drop]; rw [Nat.succ_mul] at hp; omega)]
    rw [Nat.zero_mul, List.drop_zero, List.take_append_drop]

/-- `chunks_exact(3)` yields exactly `⌊length / 3⌋` codons. -/
theorem chunksExact_length : ∀ (s : List Char), (chunksExact s).length = s.length / 3
  | [] => rfl
  | [_] => by simp [chunksExact]
  | [_, _] => by simp [chunksExact]
  | _ :: _ :: _ :: rest => by
    have ih := chunksExact_length rest
    simp only [chunksExact, List.length_cons, ih]
    omega

/-- Every rendered residue block has exactly 3 characters, in both
one-letter and three-letter mode. -/
lemma codonBlock_length {ol : Bool} {i : Nat} {codon b} (h : codonBlock ol i codon = .ok b) :
    b.length = 3 := by
  unfold codonBlock at h
  split at h
  · exact absurd h (by simp)
  · split at h
    · rcases Except.ok.inj h with rfl
      rfl
    · split at h
      · exact absurd h (by simp)
      · rename_i t ht
        rcases Except.ok.inj h with rfl
        exact three_letter_code_len ht

/-- A successfully built peptide has 3 characters per codon. -/
lemma buildPeptide_length {ol : Bool} : ∀ (l : List (List Char)) (i : Nat) {p : List Char},
    buildPeptide ol i l = .ok p → p.length = 3 * l.length := by
  intro l
  induction l with
  | nil =>
    intro i p h
    rcases Except.ok.inj h with rfl
    rfl
  | cons codon rest ih =>
    intro i p h
    unfold buildPeptide at h
    split at h
    · exact absurd h (by simp)
    · rename_i block hb
      split at h
      · exact absurd h (by simp)
      · rename_i tail ht
        rcases Except.ok.inj h with rfl
        rw [List.length_append, codonBlock_length hb, ih (i + 1) ht, List.length_cons]
        ring

/-- Total sequence length never exceeds the page capacity. -/
lemma length_le_lines_mul (s : List Char) : s.length ≤ n_lines s * line_len := by
  simp only [n_lines, line_len]
  split <;> omega

/-- Concatenating the DNA slices of all line blocks gives back the
sequence. -/
lemma dna_flatten (s p : List Char) (w : Nat) :
    (((List.range (n_lines s)).map (mkLine s p w)).map DisplayLine.dna).flatten = s := by
  rw [List.map_map]
  have hfun : (DisplayLine.dna ∘ mkLine s p w)
      = fun i => (s.drop (i * line_len)).take line_len := by
    funext i
    simp only [Function.comp_apply, mkLine]
    exact slice_norm s (i * line_len)
  rw [hfun]
  exact chunks_join (n_lines s) s (length_le_lines_mul s)

/-- Concatenating the peptide slices of all line blocks gives back the
whole peptide, as long as the peptide is no longer than the sequence. -/
lemma pept_flatten (s p : List Char) (w : Nat) (hp : p.length ≤ s.length) :
    (((List.range (n_lines s)).map (mkLine s p w)).map DisplayLine.pept).flatten = p := by
  rw [List.map_map]
  have hfun : (DisplayLine.pept ∘ mkLine s p w)
      = fun i => (p.drop (i * line_len)).take line_len := by
    funext i
    simp only [Function.comp_apply, mkLine]
    exact slice_norm p (i * line_len)
  rw [hfun]
  exact chunks_join (n_lines s) p (le_trans hp (length_le_lines_mul s))

/-- C3: `print_seq` produces `ceil(L/72)` DNA lines, and concatenating the
DNA slices of all lines (ignoring numbering) reproduces the input
sequence exactly. -/
theorem c3_pagination (s : List Char) (ol : Bool) (lines : List DisplayLine)
    (hok : print_seq s ol = .ok lines) :
    lines.length = (s.length + 71) / 72 ∧
    (lines.map DisplayLine.dna).flatten = s := by
  rcases print_seq_ok_elim hok with ⟨p, hp, rfl⟩
  constructor
  · rw [List.length_map, List.length_range]
    simp only [n_lines, line_len]
    split <;> omega
  · exact dna_flatten s p _

/-- Evaluation of `print_seq` on the 9-base sequence ATG TTT TAG in
one-letter mode. -/
lemma print_seq_eval9 : print_seq "ATGTTTTAG".data true =
    .ok [⟨1, 1, [' ', 'M', ' ', ' ', 'F', ' ', ' ', '*', ' '], 1, 1, "ATGTTTTAG".data⟩] := by
  unfold print_seq
  rw [show buildPeptide true 0 (chunksExact "ATGTTTTAG".data)
      = .ok [' ', 'M', ' ', ' ', 'F', ' ', ' ', '*', ' '] from rfl]
  rw [show count_digits ("ATGTTTTAG".data.length % 65536) = 1 by simp [count_digits, cdLoop]]
  rfl

theorem c3_pagination_witness :
    ([⟨1, 1, [' ', 'M', ' ', ' ', 'F', ' ', ' ', '*', ' '], 1, 1, "ATGTTTTAG".data⟩]
        : List DisplayLine).length = ("ATGTTTTAG".data.length + 71) / 72 ∧
    (([⟨1, 1, [' ', 'M', ' ', ' ', 'F', ' ', ' ', '*', ' '], 1, 1, "ATGTTTTAG".data⟩]
        : List DisplayLine).map DisplayLine.dna).flatten = "ATGTTTTAG".data :=
  c3_pagination "ATGTTTTAG".data true _ print_seq_eval9

/-- C4: when the sequence length is not divisible by 3, exactly
`⌊L/3⌋` codons are translated (the trailing partial codon is dropped
from the peptide, not an error), while the DNA slices still cover all
`L` bases. -/
theorem c4_partial_codon (s : List Char) (ol : Bool) (lines : List DisplayLine)
    (_h3 : s.length % 3 ≠ 0) (hok : print_seq s ol = .ok lines) :
    (chunksExact s).length = s.length / 3 ∧
    (lines.map DisplayLine.pept).flatten.length = 3 * (s.length / 3) ∧
    (lines.map DisplayLine.dna).flatten = s := by
  rcases print_seq_ok_elim hok with ⟨p, hp, rfl⟩
  have hlen := buildPeptide_length _ 0 hp
  have hchunks := chunksExact_length s
  have hple : p.length ≤ s.length := by rw [hlen, hchunks]; omega
  refine ⟨hchunks, ?_, dna_flatten s p _⟩
  rw [pept_flatten s p _ hple, hlen, hchunks]

/-- Evaluation of `print_seq` on the 10-base sequence ATG TTT TAG G in
one-letter mode: the trailing G is dropped from the peptide. -/
lemma print_seq_eval10 : print_seq "ATGTTTTAGG".data true =
    .ok [⟨1, 2, [' ', 'M', ' ', ' ', 'F', ' ', ' ', '*', ' '], 1, 2, "ATGTTTTAGG".data⟩] := by
  unfold print_seq
  rw [show buildPeptide true 0 (chunksExact "ATGTTTTAGG".data)
      = .ok [' ', 'M', ' ', ' ', 'F', ' ', ' ', '*', ' '] from rfl]
  rw [show count_digits ("ATGTTTTAGG".data.length % 65536) = 2 by simp [count_digits, cdLoop]]
  rfl

theorem c4_partial_codon_witness :
    (chunksExact "ATGTTTTAGG".data).length = "ATGTTTTAGG".data.length / 3 ∧
    (([⟨1, 2, [' ', 'M', ' ', ' ', 'F', ' ', ' ', '*', ' '], 1, 2, "ATGTTTTAGG".data⟩]
        : List DisplayLine).map DisplayLine.pept).flatten.length
      = 3 * ("ATGTTTTAGG".data.length / 3) ∧
    (([⟨1, 2, [' ', 'M', ' ', ' ', 'F', ' ', ' ', '*', ' '], 1, 2, "ATGTTTTAGG".data⟩]
        : List DisplayLine).map DisplayLine.dna).flatten = "ATGTTTTAGG".data :=
  c4_partial_codon "ATGTTTTAGG".data true _ (by decide) print_seq_eval10

/-- In one-letter mode, the successfully built peptide consists of
consecutive blocks `' ' :: residue :: ' '`, one per translated codon. -/
lemma buildPeptide_block : ∀ (l : List (List Char)) (i j : Nat) {p : List Char},
    buildPeptide true i l = .ok p → j < l.length →
    ∃ aa, translate (l.getD j []) (i + j) = .ok aa ∧
      (p.drop (3 * j)).take 3 = [' ', aa, ' '] := by
  intro l
  induction l with
  | nil =>
    intro i j p h hj
    simp at hj
  | cons codon rest ih =>
    intro i j p h hj
    unfold buildPeptide at h
    split at h
    · exact absurd h (by simp)
    · rename_i block hb
      split at h
      · exact absurd h (by simp)
      · rename_i tail ht
        rcases Except.ok.inj h with rfl
        have hblock : ∃ aa, translate codon i = .ok aa ∧ block = [' ', aa, ' '] := by
          unfold codonBlock at hb
          split at hb
          · exact absurd hb (by simp)
          · rename_i aa haa
            rw [if_pos rfl] at hb
            exact ⟨aa, haa, (Except.ok.inj hb).symm⟩
        rcases hblock with ⟨aa, haa, rfl⟩
        cases j with
        | zero =>
          refine ⟨aa, by simpa using haa, rfl⟩
        | succ j' =>
          have hj' : j' < rest.length := by
            simp only [List.length_cons] at hj
            omega
          rcases ih (i + 1) j' ht hj' with ⟨aa', haa', hslice⟩
          refine ⟨aa', ?_, ?_⟩
          · rw [List.getD_cons_succ]
            rw [show i + (j' + 1) = (i + 1) + j' by omega]
            exact haa'
          · rw [show 3 * (j' + 1) = 3 + 3 * j' by ring, ← List.drop_drop]
            exact hslice

/-- C9: in one-letter mode each residue is rendered as the 3-character
block `' ' :: residue :: ' '`, so for a sequence of length divisible by 3
the displayed peptide has exactly 3 characters per codon and its total
length equals the sequence length. -/
theorem c9_one_letter_alignment (s : List Char) (lines : List DisplayLine)
    (h3 : s.length % 3 = 0) (hok : print_seq s true = .ok lines) :
    (lines.map DisplayLine.pept).flatten.length = s.length ∧
    ∀ j, j < s.length / 3 →
      ∃ aa, translate ((chunksExact s).getD j []) j = .ok aa ∧
        ((lines.map DisplayLine.pept).flatten.drop (3 * j)).take 3 = [' ', aa, ' '] := by
  rcases print_seq_ok_elim hok with ⟨p, hp, rfl⟩
  have hlen := buildPeptide_length _ 0 hp
  have hchunks := chunksExact_length s
  have hple : p.length ≤ s.length := by rw [hlen, hchunks]; omega
  rw [pept_flatten s p _ hple]
  constructor
  · rw [hlen, hchunks]
    omega
  · intro j hj
    have hjlt : j < (chunksExact s).length := by rw [hchunks]; exact hj
    simpa using buildPeptide_block (chunksExact s) 0 j hp hjlt

theorem c9_one_letter_alignment_witness :
    (([⟨1, 1, [' ', 'M', ' ', ' ', 'F', ' ', ' ', '*', ' '], 1, 1, "ATGTTTTAG".data⟩]
        : List DisplayLine).map DisplayLine.pept).flatten.length = "ATGTTTTAG".data.length ∧
    ∀ j, j < "ATGTTTTAG".data.length / 3 →
      ∃ aa, translate ((chunksExact "ATGTTTTAG".data).getD j []) j = .ok aa ∧
        ((([⟨1, 1, [' ', 'M', ' ', ' ', 'F', ' ', ' ', '*', ' '], 1, 1, "ATGTTTTAG".data⟩]
            : List DisplayLine).map DisplayLine.pept).flatten.drop (3 * j)).take 3
          = [' ', aa, ' '] :=
  c9_one_letter_alignment "ATGTTTTAG".data _ (by decide) print_seq_eval9

/-- The first failing codon block makes the whole peptide-building loop
return exactly that error. -/
lemma buildPeptide_error_at : ∀ (l : List (List Char)) (ol : Bool) (i j : Nat) (e : Error),
    j < l.length →
    (∀ k, k < j → ∃ b, codonBlock ol (i + k) (l.getD k []) = .ok b) →
    codonBlock ol (i + j) (l.getD j []) = .error e →
    buildPeptide ol i l = .error e := by
  intro l
  induction l with
  | nil =>
    intro ol i j e hj _ _
    simp at hj
  | cons codon rest ih =>
    intro ol i j e hj hpre herr
    cases j with
    | zero =>
      unfold buildPeptide
      simp only [show codonBlock ol i codon = .error e by simpa using herr]
    | succ j' =>
      rcases hpre 0 (Nat.succ_pos j') with ⟨b, hb⟩
      have hb' : codonBlock ol i codon = .ok b := by simpa using hb
      have htail : buildPeptide ol (i + 1) rest = .error e := by
        apply ih ol (i + 1) j' e
        · simp only [List.length_cons] at hj
          omega
        · intro k hk
          have := hpre (k + 1) (by omega)
          rw [List.getD_cons_succ] at this
          rw [show (i + 1) + k = i + (k + 1) by omega]
          exact this
        · rw [show (i + 1) + j' = i + (j' + 1) by omega]
          rw [← List.getD_cons_succ (x := codon)]
          exact herr
      unfold buildPeptide
      simp only [hb', htail]

/-- C7: if any codon fails translation or naming, `print_seq` returns
that specific error and produces no line blocks at all (the peptide is
built before any line is emitted). -/
theorem c7_error_aborts (s : List Char) (ol : Bool) (j : Nat) (e : Error)
    (hj : j < (chunksExact s).length)
    (hpre : ∀ k, k < j → ∃ b, codonBlock ol k ((chunksExact s).getD k []) = .ok b)
    (herr : codonBlock ol j ((chunksExact s).getD j []) = .error e) :
    print_seq s ol = .error e ∧ ∀ lines, print_seq s ol ≠ .ok lines := by
  have hb : buildPeptide ol 0 (chunksExact s) = .error e := by
    apply buildPeptide_error_at (chunksExact s) ol 0 j e hj
    · intro k hk
      simpa using hpre k hk
    · simpa using herr
  constructor
  · unfold print_seq
    rw [hb]
  · intro lines hcontra
    rw [print_seq, hb] at hcontra
    exact absurd hcontra (by simp)

theorem c7_error_aborts_witness :
    print_seq "ATGXXX".data true = .error (.BadNucleotide [99, 99, 99]) ∧
    ∀ lines, print_seq "ATGXXX".data true ≠ .ok lines := by
  apply c7_error_aborts "ATGXXX".data true 1 (.BadNucleotide [99, 99, 99])
  · decide
  · intro k hk
    have hk0 : k = 0 := by omega
    subst hk0
    exact ⟨[' ', 'M', ' '], rfl⟩
  · rfl

/-! ### The digit counter -/

/-- The `count_digits` loop adds the base-10 logarithm of its argument. -/
lemma cdLoop_eq : ∀ n : Nat, 0 < n → ∀ d : Nat, cdLoop n d = d + Nat.log 10 n := by
  intro n
  induction n using Nat.strong_induction_on with
  | _ n ih =>
    intro hn d
    rw [cdLoop, if_pos hn]
    by_cases h10 : n < 10
    · have hdiv : n / 10 = 0 := Nat.div_eq_of_lt h10
      have hlog : Nat.log 10 n = 0 := Nat.log_eq_zero_iff.mpr (Or.inl h10)
      rw [hdiv, if_neg (by omega), cdLoop, if_neg (by omega), hlog]
      omega
    · push_neg at h10
      have hdivpos : 1 ≤ n / 10 := (Nat.one_le_div_iff (by omega)).mpr h10
      have hlt : n / 10 < n := Nat.div_lt_self (by omega) (by omega)
      rw [if_pos hdivpos, ih (n / 10) hlt (by omega) (d + 1)]
      have hlog : Nat.log 10 (n / 10) = Nat.log 10 n - 1 := Nat.log_div_base 10 n
      have hpos : 0 < Nat.log 10 n := Nat.log_pos (by omega) h10
      omega

/-- `count_digits` computes the decimal digit count of a positive number. -/
lemma count_digits_eq_digits_len (n : Nat) (h : 0 < n) :
    count_digits n = (Nat.digits 10 n).length := by
  rw [count_digits, cdLoop_eq n h 1, Nat.digits_len 10 n (by omega) (by omega)]
  omega

/-- C5: for a sequence of length at most 65535, line block `i` carries DNA
line number `i*72 + 1` and peptide line number `(i*72)/3 + 1`, and the
zero-pad width of both numbers is the decimal digit count of the total
sequence length. -/
theorem c5_line_numbering (s : List Char) (ol : Bool) (lines : List DisplayLine) (i : Nat)
    (hL : s.length ≤ 65535) (hok : print_seq s ol = .ok lines) (hi : i < lines.length) :
    (lines.getD i default).dna_number = i * 72 + 1 ∧
    (lines.getD i default).pept_number = (i * 72) / 3 + 1 ∧
    (lines.getD i default).dna_width = (Nat.digits 10 s.length).length ∧
    (lines.getD i default).pept_width = (Nat.digits 10 s.length).length := by
  rcases print_seq_ok_elim hok with ⟨p, hp, rfl⟩
  rw [List.length_map, List.length_range] at hi
  have hspos : 0 < s.length := by
    by_contra hcon
    push_neg at hcon
    have h0 : s.length = 0 := by omega
    simp [n_lines, h0, line_len] at hi
  have hmod : s.length % 65536 = s.length := Nat.mod_eq_of_lt (by omega)
  have hw : count_digits (s.length % 65536) = (Nat.digits 10 s.length).length := by
    rw [hmod]
    exact count_digits_eq_digits_len s.length hspos
  have hget : ((List.range (n_lines s)).map
        (mkLine s p (count_digits (s.length % 65536)))).getD i default
      = mkLine s p (count_digits (s.length % 65536)) i := by
    rw [List.getD_eq_getElem _ _ (by simpa using hi), List.getElem_map, List.getElem_range]
  rw [hget]
  simp only [mkLine, line_len]
  exact ⟨trivial, trivial, hw, hw⟩

theorem c5_line_numbering_witness :
    (([⟨1, 1, [' ', 'M', ' ', ' ', 'F', ' ', ' ', '*', ' '], 1, 1, "ATGTTTTAG".data⟩]
        : List DisplayLine).getD 0 default).dna_number = 0 * 72 + 1 ∧
    (([⟨1, 1, [' ', 'M', ' ', ' ', 'F', ' ', ' ', '*', ' '], 1, 1, "ATGTTTTAG".data⟩]
        : List DisplayLine).getD 0 default).pept_number = (0 * 72) / 3 + 1 ∧
    (([⟨1, 1, [' ', 'M', ' ', ' ', 'F', ' ', ' ', '*', ' '], 1, 1, "ATGTTTTAG".data⟩]
        : List DisplayLine).getD 0 default).dna_width
      = (Nat.digits 10 "ATGTTTTAG".data.length).length ∧
    (([⟨1, 1, [' ', 'M', ' ', ' ', 'F', ' ', ' ', '*', ' '], 1, 1, "ATGTTTTAG".data⟩]
        : List DisplayLine).getD 0 default).pept_width
      = (Nat.digits 10 "ATGTTTTAG".data.length).length :=
  c5_line_numbering "ATGTTTTAG".data true _ 0 (by decide) print_seq_eval9 (by decide)

end GbRead
